import Mathlib

/-!
Verification development for `web_session_demo.py` (with its precursor
`detect_page_closed.py`): a session registry keyed by opaque cookie tokens,
an idle-expiry sweeper task (`timeout_idle_sessions`), an HTTP handler
(`handle_http`) that mints/refreshes sessions, and a WebSocket handler
(`handle_websocket`) that binds a connection to a session and maintains the
per-session connection count.

Modelling conventions:
* Python `float` time values are modelled as exact rationals `ℚ`; stored
  expiry timestamps are integers `ℤ` because the source stores
  `round(time.time() + SESSION_TIMEOUT)`.  Python's `round` (banker's
  rounding, round-half-to-even) is modelled by `pyround`.
* The global dict `sessions` is modelled as an association list
  `Reg = List (String × Session)` with unique keys; dict assignment is
  `setAssoc` (replace first occurrence or append), membership/lookup is
  `getAssoc`, `del` is a key filter.  A freshly inserted record
  `{"count" : 0}` has no `"expires"` entry yet, hence
  `Session.expires : Option ℤ`.
* Each handler's per-event processing performs all of its registry reads
  and writes before its next `await` that can yield to another task, so one
  processed event (and one sweep iteration) is one atomic step of the
  interleaving semantics (`SysStep`/`sysApply`/`Reach`).
* An uncaught Python exception (the `KeyError` reachable in
  `handle_websocket` via an empty-string cookie, and the `KeyError` a sweep
  would raise on a record lacking `"expires"`) is modelled by `none` in an
  `Option` result; such a step aborts the handler and leaves the registry
  unchanged.
* The random session-id mint loop (`random.choices` retried until the
  candidate is not a key of `sessions`) is modelled by a `mint` parameter;
  its loop exit condition `getAssoc reg mint = none` is carried as a
  hypothesis (`stepOk`) where it matters.
-/

/-! ### Constants from the source -/

namespace WEBSOCK_CLOSE

def NORMAL : ℤ := 1000

def GOING_AWAY : ℤ := 1001

def PROTOCOL_ERROR : ℤ := 1002

def DATA_ERROR : ℤ := 1003

def POLICY_VIOLATION : ℤ := 1008

def WTF : ℤ := 1011

end WEBSOCK_CLOSE

/-- Interval in seconds for the dummy WebSocket message exchange (unused by
the registry logic). -/
def MSG_INTERVAL : ℚ := 10

/-- Sessions stay valid for at least this long after last HTTP access. -/
def SESSION_TIMEOUT : ℚ := 30

/-! ### Python `round` on exact rationals -/

/-- Python's builtin `round` to an integer: round half to even.  For a
rational `x` with floor `f`, the fractional remainder is
`(x.num - f * x.den) / x.den`; comparing it with `1/2` is done by the
integer comparison of `2 * (x.num - f * x.den)` with `x.den`. -/
def pyround (x : ℚ) : ℤ :=
  let f := ⌊x⌋
  let rem := x.num - f * (x.den : ℤ)
  if 2 * rem < (x.den : ℤ) then f
  else if (x.den : ℤ) < 2 * rem then f + 1
  else if f % 2 = 0 then f else f + 1

/-! ### Association-list model of Python dicts -/

/-- Dict assignment `d[k] = v`: replace the (first) binding of `k`, or
append a new binding when `k` is absent. -/
def setAssoc {α : Type} : List (String × α) → String → α → List (String × α)
  | [], k, v => [(k, v)]
  | (k', v') :: rest, k, v =>
    if k' = k then (k, v) :: rest else (k', v') :: setAssoc rest k v

/-- Dict lookup `d.get(k)` / `d[k]` (with `none` for a missing key, which
in Python is `None` for `.get` and a `KeyError` for `[]`). -/
def getAssoc {α : Type} : List (String × α) → String → Option α
  | [], _ => none
  | (k', v') :: rest, k => if k' = k then some v' else getAssoc rest k

/-! ### The session registry -/

/-- One value of the global `sessions` dict: `count` is the number of
current WebSocket connections, `expires` the cookie expiry time.  A record
is created as `{"count" : 0}` and gains its `"expires"` entry in the same
atomic step, hence the `Option`. -/
structure Session where
  count : ℤ
  expires : Option ℤ
deriving DecidableEq, Repr

/-- The global `sessions` dict. -/
abbrev Reg := List (String × Session)

/-- Every record of the registry has its `"expires"` entry set (so a sweep
reading `ses["expires"]` cannot raise `KeyError`). -/
def RegWF (reg : Reg) : Prop := ∀ p ∈ reg, p.2.expires.isSome = true

/-- The association list has pairwise distinct keys, as a Python dict does. -/
def RegKeysNodup (reg : Reg) : Prop := (reg.map Prod.fst).Nodup

/-- The assignment `sessions[t]["expires"] = e` (line 230 of the source).
The key is always present at that point in `handle_http`; the `none` branch
is dead code kept only to make the function total. -/
def regSetExpires (reg : Reg) (t : String) (e : ℤ) : Reg :=
  match getAssoc reg t with
  | some s => setAssoc reg t { s with expires := some e }
  | none => reg

/-! ### Cookie parsing (`get_cookies`) -/

/-- The bytes of the header keyword `b"cookie"`. -/
def cookieKeyword : List UInt8 := "cookie".toUTF8.toList

/-- Python `value.decode()` of a header value: UTF-8 decoding that fails
(`UnicodeDecodeError`) on invalid byte sequences. -/
def decodeHeaderValue (b : List UInt8) : Option String :=
  String.fromUTF8? (ByteArray.mk (List.toArray b))

/-- Python `item.split("=", 1)`: `none` models the `ValueError` branch
(no `"="` present), otherwise the name before the first `"="` and the
remainder after it. -/
def splitNameValue (item : String) : Option (String × String) :=
  match item.splitOn "=" with
  | [] => none
  | [_] => none
  | name :: rest => some (name, String.intercalate "=" rest)

/-- Processing the decoded value of one `cookie` header: split on `"; "`,
skip items without `"="`, assign the rest into the cookie dict. -/
def addCookieItems (d : List (String × String)) (value : String) : List (String × String) :=
  (value.splitOn "; ").foldl
    (fun d item =>
      match splitNameValue item with
      | some (name, val) => setAssoc d name val
      | none => d)
    d

/-- `get_cookies`: decode any cookie specs in the headers part of scope.
Headers whose value fails UTF-8 decoding are ignored. -/
def get_cookies (headers : List (List UInt8 × List UInt8)) : List (String × String) :=
  headers.foldl
    (fun cookies kv =>
      if kv.1 = cookieKeyword then
        match decodeHeaderValue kv.2 with
        | some value => addCookieItems cookies value
        | none => cookies
      else cookies)
    []

/-- Specification-side re-derivation of the name/value pairs contributed by
a header list, in order: decodable `cookie` headers are split on `"; "` and
items without `"="` dropped.  Used to state what `get_cookies` returns. -/
def cookiePairsSpec (headers : List (List UInt8 × List UInt8)) : List (String × String) :=
  headers.flatMap
    (fun kv =>
      if kv.1 = cookieKeyword then
        match decodeHeaderValue kv.2 with
        | some value => (value.splitOn "; ").filterMap splitNameValue
        | none => []
      else [])

/-- The value of the last binding of `k` in a list of name/value pairs. -/
def lastAssign : List (String × String) → String → Option String
  | [], _ => none
  | (k', v') :: rest, k =>
    match lastAssign rest k with
    | some r => some r
    | none => if k' = k then some v' else none

/-! ### One iteration of `timeout_idle_sessions` -/

/-- The scan of the sweep loop body: walk `sessions.items()` accumulating
the ids to delete (those with `expires <= now`) and the running minimum
expiry among the survivors.  A record lacking `"expires"` would raise
`KeyError` (`none`). -/
def sweepScan : Reg → ℚ → List String → Option ℤ → Option (List String × Option ℤ)
  | [], _, dels, nxt => some (dels, nxt)
  | (sesid, ses) :: rest, now, dels, nxt =>
    match ses.expires with
    | none => none
    | some e =>
      if (e : ℚ) ≤ now then sweepScan rest now (dels ++ [sesid]) nxt
      else
        sweepScan rest now dels
          (some (match nxt with | none => e | some m => min m e))

/-- One iteration of the `while True` loop of `timeout_idle_sessions`:
collect the expired ids and the next expiry, then delete the collected ids
from the dict.  A `none` second component means the loop `break`s (the
scheduler task terminates); otherwise it sleeps until the returned next
expiry. -/
def timeout_idle_sessions_once (reg : Reg) (now : ℚ) :
    Option (List String × Option ℤ × Reg) :=
  match sweepScan reg now [] none with
  | none => none
  | some (dels, nxt) =>
    some (dels, nxt, reg.filter (fun kv => !(dels.contains kv.1)))

/-! ### `handle_http`: one `http.request` event -/

/-- Result of processing one `http.request` event: `minted` distinguishes
the "assigning session ID" log branch from the "reconnection with existing
session ID" branch; `token` and `expires` are what the `set-cookie`
response header carries; `reg` is the registry afterwards. -/
structure HttpRes where
  minted : Bool
  token : String
  expires : ℤ
  reg : Reg
deriving DecidableEq, Repr

/-- Processing of one `http.request` event by `handle_http` (lines
189-301): read the `sessionid` cookie; a presented token absent from the
registry is treated as absent; mint a fresh record `{"count" : 0}` when
absent; in all cases set `sessions[session_id]["expires"] =
round(time.time() + SESSION_TIMEOUT)` and answer with that token and
expiry.  `mint` is the id produced by the random mint loop; the loop's
exit guarantee `getAssoc reg mint = none` is assumed where needed. -/
def httpRequest (cookieTok : Option String) (mint : String) (now : ℚ) (reg : Reg) :
    HttpRes :=
  let sid1 : Option String :=
    match cookieTok with
    | some t => if (getAssoc reg t).isNone then none else some t
    | none => none
  match sid1 with
  | none =>
    let reg1 := setAssoc reg mint ⟨0, none⟩
    let e := pyround (now + SESSION_TIMEOUT)
    ⟨true, mint, e, regSetExpires reg1 mint e⟩
  | some t =>
    let e := pyround (now + SESSION_TIMEOUT)
    ⟨false, t, e, regSetExpires reg t e⟩

/-- Events delivered to `handle_http`.  `request` carries the time of
processing and the id the mint loop would produce; `other` is any event
type other than `http.request` and `http.disconnect`. -/
inductive HttpEvent where
  | request (mint : String) (now : ℚ)
  | disconnect
  | other (ty : String)
deriving DecidableEq, Repr

/-- The event loop of `handle_http` over a finite prefix of its event
stream, collecting the `(minted, token, expires)` of each response.
`http.disconnect` breaks the loop; an unexpected event type is logged and
the loop continues. -/
def httpRun (cookieTok : Option String) :
    Reg → List HttpEvent → Reg × List (Bool × String × ℤ)
  | reg, [] => (reg, [])
  | reg, HttpEvent.request mint now :: rest =>
    let r := httpRequest cookieTok mint now reg
    let rec' := httpRun cookieTok r.reg rest
    (rec'.1, (r.minted, r.token, r.expires) :: rec'.2)
  | reg, HttpEvent.disconnect :: _ => (reg, [])
  | reg, HttpEvent.other _ :: rest => httpRun cookieTok reg rest

/-! ### `handle_websocket` -/

/-- Events delivered to `handle_websocket`; `other` is any event type other
than the three recognised ones. -/
inductive WsEvent where
  | connect
  | receive (text : Option String) (bytes : Option (List UInt8))
  | disconnect (code : ℤ)
  | other (ty : String)
deriving DecidableEq, Repr

/-- Messages the WebSocket handler sends. -/
inductive WsOut where
  | accept
  | close (code : ℤ)
  | send (text : Option String) (bytes : Option (List UInt8))
deriving DecidableEq, Repr

/-- Result of processing one WebSocket event: the handler's `session_id`
variable afterwards, the registry afterwards, the messages sent, and
whether the event loop continues (`more = false` models `break`). -/
structure WsRes where
  bound : Option String
  reg : Reg
  out : List WsOut
  more : Bool
deriving DecidableEq, Repr

/-- The event dispatch of `handle_websocket` (lines 328-377), after the
timed-out check.  On `websocket.connect` the `sessionid` cookie is read; a
truthy cookie absent from the registry is discarded; a remaining non-`None`
id is bound and its count incremented (`sessions[session_id]["count"] += 1`
raises `KeyError`, modelled `none`, when the id — necessarily the empty
string — is not a key); a `None` id is answered with a POLICY_VIOLATION
close, and the loop continues.  `websocket.receive` echoes the data back.
`websocket.disconnect` decrements the count if the bound id is still a key,
then breaks.  Any other event type is logged and the loop continues. -/
def wsDispatch (cookieTok : Option String) (bound : Option String) (reg : Reg)
    (ev : WsEvent) : Option WsRes :=
  match ev with
  | WsEvent.connect =>
    let sid1 : Option String :=
      match cookieTok with
      | some t => if t ≠ "" ∧ getAssoc reg t = none then none else some t
      | none => none
    match sid1 with
    | some t =>
      match getAssoc reg t with
      | some ses =>
        some ⟨some t, setAssoc reg t { ses with count := ses.count + 1 },
          [WsOut.accept], true⟩
      | none => none
    | none =>
      some ⟨none, reg, [WsOut.close WEBSOCK_CLOSE.POLICY_VIOLATION], true⟩
  | WsEvent.receive text bytes => some ⟨bound, reg, [WsOut.send text bytes], true⟩
  | WsEvent.disconnect _ =>
    match bound with
    | some t =>
      match getAssoc reg t with
      | some ses =>
        some ⟨bound, setAssoc reg t { ses with count := ses.count - 1 }, [], false⟩
      | none => some ⟨bound, reg, [], false⟩
    | none => some ⟨none, reg, [], false⟩
  | WsEvent.other _ => some ⟨bound, reg, [], true⟩

/-- Processing of one received event by `handle_websocket` (lines 314-378):
first the timed-out check — a bound `session_id` no longer in `sessions`
is answered with a GOING_AWAY close and the loop breaks — then the event
dispatch. -/
def wsStep (cookieTok : Option String) (bound : Option String) (reg : Reg)
    (ev : WsEvent) : Option WsRes :=
  match bound with
  | some t =>
    if (getAssoc reg t).isNone then
      some ⟨some t, reg, [WsOut.close WEBSOCK_CLOSE.GOING_AWAY], false⟩
    else wsDispatch cookieTok bound reg ev
  | none => wsDispatch cookieTok bound reg ev

/-- The event loop of `handle_websocket` over a finite prefix of its event
stream, starting from `session_id = bound` (initially `none`), collecting
all messages sent.  `none` models the handler dying of an uncaught
`KeyError`. -/
def wsRun (cookieTok : Option String) :
    Option String → Reg → List WsEvent → Option (Option String × Reg × List WsOut)
  | bound, reg, [] => some (bound, reg, [])
  | bound, reg, ev :: rest =>
    match wsStep cookieTok bound reg ev with
    | none => none
    | some r =>
      if r.more then
        match wsRun cookieTok r.bound r.reg rest with
        | none => none
        | some (b, g, outs) => some (b, g, r.out ++ outs)
      else some (r.bound, r.reg, r.out)

/-! ### Interleaving semantics of the registry -/

/-- One atomic step of one task, as seen by the shared registry: one
`http.request` processed by some `handle_http` instance, one event
processed by some `handle_websocket` instance whose `session_id` variable
currently holds `bound`, or one iteration of `timeout_idle_sessions`. -/
inductive SysStep where
  | http (cookieTok : Option String) (mint : String) (now : ℚ)
  | ws (bound : Option String) (cookieTok : Option String) (ev : WsEvent)
  | sweep (now : ℚ)

/-- Effect of one step on the registry.  A step that dies of an exception
leaves the registry unchanged (the raise happens on the failing lookup,
before any write). -/
def sysApply (reg : Reg) : SysStep → Reg
  | SysStep.http cookieTok mint now => (httpRequest cookieTok mint now reg).reg
  | SysStep.ws bound cookieTok ev =>
    match wsStep cookieTok bound reg ev with
    | some r => r.reg
    | none => reg
  | SysStep.sweep now =>
    match timeout_idle_sessions_once reg now with
    | some r => r.2.2
    | none => reg

/-- Iterated steps. -/
def sysRun (reg : Reg) (steps : List SysStep) : Reg :=
  steps.foldl sysApply reg

/-- Side condition of a step: the mint loop of `handle_http` only ever
settles on an id that is not currently a key of `sessions`. -/
def stepOk (reg : Reg) : SysStep → Prop
  | SysStep.http _ mint _ => getAssoc reg mint = none
  | _ => True

/-- Registry states reachable from the empty initial `sessions` dict by
atomic steps. -/
inductive Reach : Reg → Prop
  | init : Reach []
  | step {reg : Reg} (s : SysStep) : Reach reg → stepOk reg s → Reach (sysApply reg s)

/-- A record is due for deletion by the sweep at time `now`. -/
def expiredAt (now : ℚ) (kv : String × Session) : Bool :=
  match kv.2.expires with
  | some e => decide ((e : ℚ) ≤ now)
  | none => false

/-- The running-minimum accumulation performed by the sweep loop over the
surviving records' expiry times. -/
def minAcc : Option ℤ → List ℤ → Option ℤ
  | acc, [] => acc
  | acc, e :: rest =>
    minAcc (some (match acc with | none => e | some m => min m e)) rest

/-- The expiry times of the surviving records, in registry order. -/
def survExpiries (reg : Reg) (now : ℚ) : List ℤ :=
  (reg.filter (fun kv => !(expiredAt now kv))).filterMap (fun kv => kv.2.expires)

/-- First-defined-wins choice on options (`optOr a b` is `a` unless `a` is
`none`), used to state lookup results of successively built dicts. -/
def optOr {α : Type} : Option α → Option α → Option α
  | some v, _ => some v
  | none, b => b

/-- The step does not create a session record under token `t` (its mint
parameter, if any, is a different id). -/
def stepAvoids (t : String) : SysStep → Prop
  | SysStep.http _ mint _ => mint ≠ t
  | SysStep.ws _ _ _ => True
  | SysStep.sweep _ => True

/-! ## Lemmas about the association-list dict operations -/

theorem getAssoc_setAssoc_self {α : Type} (l : List (String × α)) (k : String) (v : α) :
    getAssoc (setAssoc l k v) k = some v := by
  induction l with
  | nil => simp [setAssoc, getAssoc]
  | cons p rest ih =>
    by_cases h : p.1 = k
    · simp [setAssoc, getAssoc, h]
    · simp [setAssoc, getAssoc, h, ih]

theorem getAssoc_setAssoc_ne {α : Type} (l : List (String × α)) {k k' : String} (v : α)
    (h : k' ≠ k) : getAssoc (setAssoc l k v) k' = getAssoc l k' := by
  induction l with
  | nil => simp [setAssoc, getAssoc, Ne.symm h]
  | cons p rest ih =>
    by_cases hp : p.1 = k
    · simp [setAssoc, getAssoc, hp, Ne.symm h]
    · by_cases hp' : p.1 = k'
      · simp [setAssoc, getAssoc, hp, hp', h]
      · simp [setAssoc, getAssoc, hp, hp', ih]

theorem setAssoc_setAssoc {α : Type} (l : List (String × α)) (k : String) (v₁ v₂ : α) :
    setAssoc (setAssoc l k v₁) k v₂ = setAssoc l k v₂ := by
  induction l with
  | nil => simp [setAssoc]
  | cons p rest ih =>
    by_cases h : p.1 = k
    · simp [setAssoc, h]
    · simp [setAssoc, h, ih]

theorem mem_setAssoc {α : Type} {l : List (String × α)} {k : String} {v : α}
    {p : String × α} (h : p ∈ setAssoc l k v) : p ∈ l ∨ p = (k, v) := by
  induction l with
  | nil => simpa [setAssoc] using h
  | cons q rest ih =>
    by_cases hq : q.1 = k
    · rw [setAssoc, if_pos hq] at h
      rcases List.mem_cons.mp h with h | h
      · exact Or.inr h
      · exact Or.inl (List.mem_cons_of_mem _ h)
    · rw [setAssoc, if_neg hq] at h
      rcases List.mem_cons.mp h with h | h
      · exact Or.inl (h ▸ List.mem_cons_self _ _)
      · rcases ih h with h | h
        · exact Or.inl (List.mem_cons_of_mem _ h)
        · exact Or.inr h

theorem getAssoc_mem {α : Type} {l : List (String × α)} {k : String} {v : α}
    (h : getAssoc l k = some v) : (k, v) ∈ l := by
  induction l with
  | nil => simp [getAssoc] at h
  | cons p rest ih =>
    rcases p with ⟨pk, pv⟩
    by_cases hp : pk = k
    · rw [getAssoc, if_pos hp] at h
      obtain rfl := hp
      obtain rfl := Option.some_injective _ h
      exact List.mem_cons_self _ _
    · rw [getAssoc, if_neg hp] at h
      exact List.mem_cons_of_mem _ (ih h)

theorem getAssoc_setAssoc_absent {α : Type} {l : List (String × α)} {k : String} (v : α)
    (h : getAssoc l k = none) : setAssoc l k v = l ++ [(k, v)] := by
  induction l with
  | nil => simp [setAssoc]
  | cons p rest ih =>
    by_cases hp : p.1 = k
    · rw [getAssoc, if_pos hp] at h
      exact absurd h (by simp)
    · rw [getAssoc, if_neg hp] at h
      simp [setAssoc, hp, ih h]

theorem getAssoc_ne_none_setAssoc {α : Type} {l : List (String × α)} {t k : String}
    (v : α) (h : getAssoc l t ≠ none) : getAssoc (setAssoc l k v) t ≠ none := by
  by_cases ht : t = k
  · subst ht
    simp [getAssoc_setAssoc_self]
  · rw [getAssoc_setAssoc_ne l v ht]
    exact h

theorem getAssoc_none_setAssoc {α : Type} {l : List (String × α)} {t k : String}
    (v : α) (h : getAssoc l t = none) (hk : k ≠ t) :
    getAssoc (setAssoc l k v) t = none := by
  rw [getAssoc_setAssoc_ne l v (Ne.symm hk)]
  exact h

theorem getAssoc_filter_none {α : Type} {l : List (String × α)} {t : String}
    (p : String × α → Bool) (h : getAssoc l t = none) :
    getAssoc (l.filter p) t = none := by
  induction l with
  | nil => simp [getAssoc]
  | cons q rest ih =>
    by_cases hq : q.1 = t
    · rw [getAssoc, if_pos hq] at h
      exact absurd h (by simp)
    · rw [getAssoc, if_neg hq] at h
      rw [List.filter_cons]
      by_cases hp : p q
      · simp only [hp, if_true, getAssoc, hq, if_false]
        exact ih h
      · simp only [hp]
        simpa using ih h

/-- In a list with pairwise distinct keys, two members with the same key
are the same pair. -/
theorem nodup_key_unique {α : Type} {l : List (String × α)}
    (hnd : (l.map Prod.fst).Nodup) {p q : String × α}
    (hp : p ∈ l) (hq : q ∈ l) (hk : p.1 = q.1) : p = q := by
  induction l with
  | nil => cases hp
  | cons a rest ih =>
    rw [List.map_cons, List.nodup_cons] at hnd
    rcases List.mem_cons.mp hp with rfl | hp' <;>
      rcases List.mem_cons.mp hq with rfl | hq'
    · rfl
    · exact absurd (hk ▸ List.mem_map_of_mem Prod.fst hq') hnd.1
    · exact absurd (hk ▸ List.mem_map_of_mem Prod.fst hp') hnd.1
    · exact ih hnd.2 hp' hq'

/-! ## Lemmas about `pyround` -/

theorem num_eq_mul_den (x : ℚ) : (x.num : ℚ) = x * (x.den : ℚ) := by
  have hden : ((x.den : ℚ)) ≠ 0 := by
    exact_mod_cast x.den_nz
  calc (x.num : ℚ) = (x.num : ℚ) / (x.den : ℚ) * (x.den : ℚ) := by
        rw [div_mul_cancel₀ _ hden]
    _ = x * (x.den : ℚ) := by rw [Rat.num_div_den]

theorem pyround_rem_lt_iff (x : ℚ) :
    (2 * (x.num - ⌊x⌋ * (x.den : ℤ)) < (x.den : ℤ)) ↔ x - ⌊x⌋ < 1/2 := by
  have hden : (0 : ℚ) < (x.den : ℚ) := by exact_mod_cast x.den_pos
  constructor
  · intro h
    have h' : ((2 * (x.num - ⌊x⌋ * (x.den : ℤ)) : ℤ) : ℚ) < ((x.den : ℤ) : ℚ) := by
      exact_mod_cast h
    push_cast at h'
    rw [num_eq_mul_den] at h'
    nlinarith
  · intro h
    have h' : ((2 * (x.num - ⌊x⌋ * (x.den : ℤ)) : ℤ) : ℚ) < ((x.den : ℤ) : ℚ) := by
      push_cast
      rw [num_eq_mul_den]
      nlinarith
    exact_mod_cast h'

theorem pyround_rem_gt_iff (x : ℚ) :
    ((x.den : ℤ) < 2 * (x.num - ⌊x⌋ * (x.den : ℤ))) ↔ 1/2 < x - ⌊x⌋ := by
  have hden : (0 : ℚ) < (x.den : ℚ) := by exact_mod_cast x.den_pos
  constructor
  · intro h
    have h' : ((x.den : ℤ) : ℚ) < ((2 * (x.num - ⌊x⌋ * (x.den : ℤ)) : ℤ) : ℚ) := by
      exact_mod_cast h
    push_cast at h'
    rw [num_eq_mul_den] at h'
    nlinarith
  · intro h
    have h' : ((x.den : ℤ) : ℚ) < ((2 * (x.num - ⌊x⌋ * (x.den : ℤ)) : ℤ) : ℚ) := by
      push_cast
      rw [num_eq_mul_den]
      nlinarith
    exact_mod_cast h'

/-- `pyround` rephrased through the fractional part. -/
theorem pyround_eq_fract (x : ℚ) :
    pyround x =
      if x - ⌊x⌋ < 1/2 then ⌊x⌋
      else if 1/2 < x - ⌊x⌋ then ⌊x⌋ + 1
      else if ⌊x⌋ % 2 = 0 then ⌊x⌋ else ⌊x⌋ + 1 := by
  simp only [pyround]
  by_cases h1 : x - ⌊x⌋ < 1/2
  · rw [if_pos ((pyround_rem_lt_iff x).mpr h1), if_pos h1]
  · rw [if_neg (fun hc => h1 ((pyround_rem_lt_iff x).mp hc)), if_neg h1]
    by_cases h2 : 1/2 < x - ⌊x⌋
    · rw [if_pos ((pyround_rem_gt_iff x).mpr h2), if_pos h2]
    · rw [if_neg (fun hc => h2 ((pyround_rem_gt_iff x).mp hc)), if_neg h2]

theorem floor_le_pyround (x : ℚ) : ⌊x⌋ ≤ pyround x := by
  rw [pyround_eq_fract]
  split_ifs <;> omega

theorem pyround_le_floor_add_one (x : ℚ) : pyround x ≤ ⌊x⌋ + 1 := by
  rw [pyround_eq_fract]
  split_ifs <;> omega

/-- Python's `round` is monotone (not strictly: nearby values round to the
same integer). -/
theorem pyround_mono {x y : ℚ} (h : x ≤ y) : pyround x ≤ pyround y := by
  rcases lt_or_eq_of_le (Int.floor_mono h) with hf | hf
  · calc pyround x ≤ ⌊x⌋ + 1 := pyround_le_floor_add_one x
      _ ≤ ⌊y⌋ := by omega
      _ ≤ pyround y := floor_le_pyround y
  · have hfr : x - (⌊x⌋ : ℚ) ≤ y - (⌊x⌋ : ℚ) := by linarith
    rw [pyround_eq_fract, pyround_eq_fract, ← hf]
    split_ifs <;> first | omega | linarith

/-! ## Characterization of `httpRequest` -/

theorem httpRequest_mint {cookieTok : Option String} {reg : Reg} (mint : String) (now : ℚ)
    (h : cookieTok = none ∨ ∃ t, cookieTok = some t ∧ getAssoc reg t = none) :
    httpRequest cookieTok mint now reg =
      ⟨true, mint, pyround (now + SESSION_TIMEOUT),
        setAssoc reg mint ⟨0, some (pyround (now + SESSION_TIMEOUT))⟩⟩ := by
  rcases h with rfl | ⟨t, rfl, ht⟩
  · simp only [httpRequest, regSetExpires, getAssoc_setAssoc_self, setAssoc_setAssoc]
  · simp only [httpRequest, ht, Option.isNone_none, if_pos, regSetExpires,
      getAssoc_setAssoc_self, setAssoc_setAssoc]

theorem httpRequest_touch {reg : Reg} {t : String} {s : Session} (mint : String) (now : ℚ)
    (h : getAssoc reg t = some s) :
    httpRequest (some t) mint now reg =
      ⟨false, t, pyround (now + SESSION_TIMEOUT),
        setAssoc reg t { s with expires := some (pyround (now + SESSION_TIMEOUT)) }⟩ := by
  simp only [httpRequest, h, Option.isNone_some, Bool.false_eq_true, if_false, regSetExpires]

/-! ## Characterization of `wsStep` -/

theorem wsStep_goingaway {c : Option String} {t : String} {reg : Reg} (ev : WsEvent)
    (h : getAssoc reg t = none) :
    wsStep c (some t) reg ev =
      some ⟨some t, reg, [WsOut.close WEBSOCK_CLOSE.GOING_AWAY], false⟩ := by
  simp [wsStep, h]

/-- The registry after a successful `wsStep` is either unchanged or one
record's `count` replaced. -/
theorem wsDispatch_reg_shape {c b : Option String} {reg : Reg} {ev : WsEvent} {r : WsRes}
    (h : wsDispatch c b reg ev = some r) :
    r.reg = reg ∨
      ∃ k ses cnt, getAssoc reg k = some ses ∧
        r.reg = setAssoc reg k { ses with count := cnt } := by
  cases ev with
  | connect =>
    rcases c with _ | tok
    · have h' : some (⟨none, reg, [WsOut.close WEBSOCK_CLOSE.POLICY_VIOLATION], true⟩ :
          WsRes) = some r := h
      cases h'
      exact Or.inl rfl
    · simp only [wsDispatch] at h
      by_cases hc : tok ≠ "" ∧ getAssoc reg tok = none
      · rw [if_pos hc] at h
        have h' : some (⟨none, reg, [WsOut.close WEBSOCK_CLOSE.POLICY_VIOLATION], true⟩ :
            WsRes) = some r := h
        cases h'
        exact Or.inl rfl
      · rw [if_neg hc] at h
        have h' : (match getAssoc reg tok with
            | some ses =>
              some (⟨some tok, setAssoc reg tok { ses with count := ses.count + 1 },
                [WsOut.accept], true⟩ : WsRes)
            | none => none) = some r := h
        rcases hg : getAssoc reg tok with _ | ses
        · rw [hg] at h'
          cases h'
        · rw [hg] at h'
          cases h'
          exact Or.inr ⟨tok, ses, ses.count + 1, hg, rfl⟩
  | receive text bytes =>
    have h' : some (⟨b, reg, [WsOut.send text bytes], true⟩ : WsRes) = some r := h
    cases h'
    exact Or.inl rfl
  | disconnect code =>
    rcases b with _ | u
    · have h' : some (⟨none, reg, [], false⟩ : WsRes) = some r := h
      cases h'
      exact Or.inl rfl
    · have h' : (match getAssoc reg u with
          | some ses =>
            some (⟨some u, setAssoc reg u { ses with count := ses.count - 1 }, [], false⟩ :
              WsRes)
          | none => some (⟨some u, reg, [], false⟩ : WsRes)) = some r := h
      rcases hg : getAssoc reg u with _ | ses
      · rw [hg] at h'
        cases h'
        exact Or.inl rfl
      · rw [hg] at h'
        cases h'
        exact Or.inr ⟨u, ses, ses.count - 1, hg, rfl⟩
  | other ty =>
    have h' : some (⟨b, reg, [], true⟩ : WsRes) = some r := h
    cases h'
    exact Or.inl rfl

theorem wsStep_reg_shape {c b : Option String} {reg : Reg} {ev : WsEvent} {r : WsRes}
    (h : wsStep c b reg ev = some r) :
    r.reg = reg ∨
      ∃ k ses cnt, getAssoc reg k = some ses ∧
        r.reg = setAssoc reg k { ses with count := cnt } := by
  rcases b with _ | u
  · simp only [wsStep] at h
    exact wsDispatch_reg_shape h
  · simp only [wsStep] at h
    by_cases hu : (getAssoc reg u).isNone = true
    · rw [if_pos hu] at h
      cases h
      exact Or.inl rfl
    · rw [if_neg hu] at h
      exact wsDispatch_reg_shape h

theorem wsStep_expires_map {c b : Option String} {reg : Reg} {ev : WsEvent} {r : WsRes}
    (h : wsStep c b reg ev = some r) (t : String) :
    (getAssoc r.reg t).map Session.expires = (getAssoc reg t).map Session.expires := by
  rcases wsStep_reg_shape h with hr | ⟨k, ses, cnt, hk, hr⟩
  · rw [hr]
  · rw [hr]
    by_cases ht : t = k
    · subst ht
      rw [getAssoc_setAssoc_self, hk]
      rfl
    · rw [getAssoc_setAssoc_ne _ _ ht]

theorem wsStep_none_iff {c b : Option String} {reg : Reg} {ev : WsEvent} {r : WsRes}
    (h : wsStep c b reg ev = some r) (t : String) :
    (getAssoc r.reg t = none ↔ getAssoc reg t = none) := by
  have hm := wsStep_expires_map h t
  constructor
  · intro hx
    rw [hx] at hm
    exact Option.map_eq_none'.mp hm.symm
  · intro hx
    rw [hx] at hm
    simp only [Option.map_none'] at hm
    exact Option.map_eq_none'.mp hm

/-! ## Key preservation by the handlers (the sweep is the only deleter) -/

theorem httpRequest_reg_shape (cookieTok : Option String) (mint : String) (now : ℚ)
    (reg : Reg) :
    (httpRequest cookieTok mint now reg).reg =
        setAssoc reg mint ⟨0, some (pyround (now + SESSION_TIMEOUT))⟩ ∨
      ∃ t s, getAssoc reg t = some s ∧
        (httpRequest cookieTok mint now reg).reg =
          setAssoc reg t { s with expires := some (pyround (now + SESSION_TIMEOUT)) } := by
  rcases cookieTok with _ | t
  · rw [httpRequest_mint mint now (Or.inl rfl)]
    exact Or.inl rfl
  · rcases hg : getAssoc reg t with _ | s
    · rw [httpRequest_mint mint now (Or.inr ⟨t, rfl, hg⟩)]
      exact Or.inl rfl
    · rw [httpRequest_touch mint now hg]
      exact Or.inr ⟨t, s, hg, rfl⟩

theorem httpRequest_key_pres (cookieTok : Option String) (mint : String) (now : ℚ)
    {reg : Reg} {t : String} (h : getAssoc reg t ≠ none) :
    getAssoc (httpRequest cookieTok mint now reg).reg t ≠ none := by
  rcases httpRequest_reg_shape cookieTok mint now reg with hr | ⟨u, s, _, hr⟩ <;>
    · rw [hr]
      exact getAssoc_ne_none_setAssoc _ h

theorem wsStep_key_pres {c b : Option String} {reg : Reg} {ev : WsEvent} {r : WsRes}
    (h : wsStep c b reg ev = some r) {t : String} (ht : getAssoc reg t ≠ none) :
    getAssoc r.reg t ≠ none := fun hc => ht ((wsStep_none_iff h t).mp hc)

theorem httpRequest_absent_pres (cookieTok : Option String) {mint : String} (now : ℚ)
    {reg : Reg} {t : String} (h : getAssoc reg t = none) (hm : mint ≠ t) :
    getAssoc (httpRequest cookieTok mint now reg).reg t = none := by
  rcases httpRequest_reg_shape cookieTok mint now reg with hr | ⟨u, s, hu, hr⟩
  · rw [hr]
    exact getAssoc_none_setAssoc _ h hm
  · rw [hr]
    refine getAssoc_none_setAssoc _ h (fun hc => ?_)
    rw [hc, h] at hu
    cases hu

theorem wsStep_absent_pres {c b : Option String} {reg : Reg} {ev : WsEvent} {r : WsRes}
    (h : wsStep c b reg ev = some r) {t : String} (ht : getAssoc reg t = none) :
    getAssoc r.reg t = none := (wsStep_none_iff h t).mpr ht

/-! ## Characterization of the sweep -/

theorem minAcc_eq_none_iff (acc : Option ℤ) (l : List ℤ) :
    minAcc acc l = none ↔ acc = none ∧ l = [] := by
  induction l generalizing acc with
  | nil => simp [minAcc]
  | cons e rest ih =>
    simp only [minAcc]
    rw [ih]
    simp

theorem minAcc_spec (l : List ℤ) (acc : Option ℤ) {m : ℤ} (h : minAcc acc l = some m) :
    (acc = some m ∨ m ∈ l) ∧ (∀ a, acc = some a → m ≤ a) ∧ ∀ e ∈ l, m ≤ e := by
  induction l generalizing acc with
  | nil =>
    simp only [minAcc] at h
    refine ⟨Or.inl h, fun a ha => ?_, by simp⟩
    rw [h] at ha
    exact le_of_eq (Option.some_injective _ ha)
  | cons e rest ih =>
    simp only [minAcc] at h
    rcases acc with _ | a
    · obtain ⟨h1, h2, h3⟩ := ih _ h
      have hme : m ≤ e := h2 e rfl
      refine ⟨?_, by simp, ?_⟩
      · rcases h1 with h1 | h1
        · have hv : e = m := Option.some_injective _ h1
          exact Or.inr (hv ▸ List.mem_cons_self _ _)
        · exact Or.inr (List.mem_cons_of_mem _ h1)
      · intro e' he'
        rcases List.mem_cons.mp he' with rfl | he'
        · exact hme
        · exact h3 e' he'
    · obtain ⟨h1, h2, h3⟩ := ih _ h
      have hme : m ≤ min a e := h2 _ rfl
      refine ⟨?_, ?_, ?_⟩
      · rcases h1 with h1 | h1
        · have hv : min a e = m := Option.some_injective _ h1
          rcases min_cases a e with ⟨hmin, _⟩ | ⟨hmin, _⟩
          · exact Or.inl (by rw [← hv, hmin])
          · refine Or.inr ?_
            rw [← hv, hmin]
            exact List.mem_cons_self _ _
        · exact Or.inr (List.mem_cons_of_mem _ h1)
      · intro a' ha'
        obtain rfl := Option.some_injective _ ha'
        exact le_trans hme (min_le_left _ _)
      · intro e' he'
        rcases List.mem_cons.mp he' with rfl | he'
        · exact le_trans hme (min_le_right _ _)
        · exact h3 e' he'

theorem sweepScan_eq (reg : Reg) (now : ℚ) (dels : List String) (acc : Option ℤ)
    (h : RegWF reg) :
    sweepScan reg now dels acc =
      some (dels ++ (reg.filter (expiredAt now)).map Prod.fst,
        minAcc acc (survExpiries reg now)) := by
  induction reg generalizing dels acc with
  | nil => simp [sweepScan, minAcc, survExpiries]
  | cons p rest ih =>
    have hwf : RegWF rest := fun q hq => h q (List.mem_cons_of_mem _ hq)
    have hp : p.2.expires.isSome = true := h p (List.mem_cons_self _ _)
    rcases p with ⟨sesid, ses⟩
    rcases hx : ses.expires with _ | e
    · rw [hx] at hp
      cases hp
    · simp only [sweepScan, hx]
      by_cases he : (e : ℚ) ≤ now
      · rw [if_pos he, ih _ _ hwf]
        have hexp : expiredAt now (sesid, ses) = true := by
          simp [expiredAt, hx, he]
        rw [List.filter_cons_of_pos hexp]
        have hsv : survExpiries ((sesid, ses) :: rest) now = survExpiries rest now := by
          rw [survExpiries, List.filter_cons_of_neg (by simp [hexp]), ← survExpiries]
        rw [hsv]
        simp
      · rw [if_neg he, ih _ _ hwf]
        have hexp : expiredAt now (sesid, ses) = false := by
          simp [expiredAt, hx, he]
        rw [List.filter_cons_of_neg (by simp [hexp])]
        have hsv : survExpiries ((sesid, ses) :: rest) now = e :: survExpiries rest now := by
          rw [survExpiries, List.filter_cons_of_pos (by simp [hexp]), List.filterMap_cons,
            ← survExpiries]
          simp [hx]
        rw [hsv]
        simp only [minAcc]

theorem contains_iff_mem (l : List String) (a : String) : l.contains a = true ↔ a ∈ l :=
  List.elem_iff

/-- Deleting the collected expired ids from the registry keeps exactly the
non-expired records (keys are unique in a dict). -/
theorem sweep_delete_filter (reg : Reg) (now : ℚ) (hnd : RegKeysNodup reg) :
    reg.filter (fun kv => !(((reg.filter (expiredAt now)).map Prod.fst).contains kv.1)) =
      reg.filter (fun kv => !(expiredAt now kv)) := by
  apply List.filter_congr
  intro kv hkv
  suffices hs : ((reg.filter (expiredAt now)).map Prod.fst).contains kv.1 = expiredAt now kv by
    rw [hs]
  by_cases hx : expiredAt now kv = true
  · rw [hx]
    rw [contains_iff_mem]
    exact List.mem_map_of_mem Prod.fst (List.mem_filter.mpr ⟨hkv, hx⟩)
  · rw [Bool.not_eq_true] at hx
    rw [hx]
    rw [show (((reg.filter (expiredAt now)).map Prod.fst).contains kv.1 = false) ↔
        ¬ (((reg.filter (expiredAt now)).map Prod.fst).contains kv.1 = true) by
      simp]
    rw [contains_iff_mem]
    intro hc
    obtain ⟨kv', hkv', hk⟩ := List.mem_map.mp hc
    have hkv'mem := (List.mem_filter.mp hkv').1
    have hkv'exp := (List.mem_filter.mp hkv').2
    have heq : kv' = kv := nodup_key_unique hnd hkv'mem hkv hk
    rw [heq] at hkv'exp
    rw [hx] at hkv'exp
    cases hkv'exp

theorem survExpiries_eq_nil_iff (reg : Reg) (now : ℚ) (h : RegWF reg) :
    survExpiries reg now = [] ↔ reg.filter (fun kv => !(expiredAt now kv)) = [] := by
  rw [survExpiries]
  constructor
  · intro hn
    rcases hf : reg.filter (fun kv => !(expiredAt now kv)) with _ | ⟨p, rest⟩
    · rfl
    · have hp : p ∈ reg := (List.mem_filter.mp (hf ▸ List.mem_cons_self p rest)).1
      have hps := h p hp
      rcases hx : p.2.expires with _ | e
      · rw [hx] at hps
        cases hps
      · rw [hf, List.filterMap_cons] at hn
        rw [hx] at hn
        cases hn
  · intro hf
    rw [hf]
    rfl

/-! ## Preservation of registry well-formedness -/

theorem RegWF_setAssoc {reg : Reg} {k : String} {v : Session} (h : RegWF reg)
    (hv : v.expires.isSome = true) : RegWF (setAssoc reg k v) := by
  intro p hp
  rcases mem_setAssoc hp with hp | rfl
  · exact h p hp
  · exact hv

theorem RegWF_httpRequest (cookieTok : Option String) (mint : String) (now : ℚ)
    {reg : Reg} (h : RegWF reg) : RegWF (httpRequest cookieTok mint now reg).reg := by
  rcases httpRequest_reg_shape cookieTok mint now reg with hr | ⟨t, s, ht, hr⟩ <;> rw [hr]
  · exact RegWF_setAssoc h rfl
  · exact RegWF_setAssoc h rfl

theorem RegWF_wsStep {c b : Option String} {reg : Reg} {ev : WsEvent} {r : WsRes}
    (h : wsStep c b reg ev = some r) (hw : RegWF reg) : RegWF r.reg := by
  rcases wsStep_reg_shape h with hr | ⟨k, ses, cnt, hk, hr⟩ <;> rw [hr]
  · exact hw
  · exact RegWF_setAssoc hw (hw (k, ses) (getAssoc_mem hk))

theorem RegWF_sweep {reg : Reg} {now : ℚ} {r : List String × Option ℤ × Reg}
    (h : timeout_idle_sessions_once reg now = some r) (hw : RegWF reg) : RegWF r.2.2 := by
  rw [timeout_idle_sessions_once] at h
  rcases hs : sweepScan reg now [] none with _ | pair
  · rw [hs] at h
    cases h
  · rcases pair with ⟨dels, nxt⟩
    rw [hs] at h
    have h' : some (dels, nxt, reg.filter (fun kv => !(dels.contains kv.1))) = some r := h
    obtain rfl := Option.some_injective _ h'
    intro p hp
    exact hw p (List.mem_filter.mp hp).1

theorem RegWF_sysApply {reg : Reg} (s : SysStep) (h : RegWF reg) :
    RegWF (sysApply reg s) := by
  cases s with
  | http c m now => exact RegWF_httpRequest c m now h
  | ws b c ev =>
    rw [sysApply]
    rcases hs : wsStep c b reg ev with _ | r
    · exact h
    · exact RegWF_wsStep hs h
  | sweep now =>
    rw [sysApply]
    rcases hs : timeout_idle_sessions_once reg now with _ | r
    · exact h
    · exact RegWF_sweep hs h

/-! ## Further helpers for the claims -/

theorem timeout_once_inv {reg : Reg} {now : ℚ} {dels : List String} {nxt : Option ℤ}
    {surv : Reg} (h : timeout_idle_sessions_once reg now = some (dels, nxt, surv)) :
    sweepScan reg now [] none = some (dels, nxt) ∧
      surv = reg.filter (fun kv => !(dels.contains kv.1)) := by
  rw [timeout_idle_sessions_once] at h
  rcases hs : sweepScan reg now [] none with _ | ⟨d0, n0⟩
  · rw [hs] at h
    cases h
  · rw [hs] at h
    have h' : some (d0, n0, reg.filter (fun kv => !(d0.contains kv.1)))
        = some (dels, nxt, surv) := h
    obtain heq := Option.some_injective _ h'
    rw [Prod.mk.injEq, Prod.mk.injEq] at heq
    obtain ⟨rfl, rfl, rfl⟩ := heq
    exact ⟨rfl, rfl⟩

theorem getAssoc_del_filter {reg : Reg} {dels : List String} {t : String} (h : t ∈ dels) :
    getAssoc (reg.filter (fun kv => !(dels.contains kv.1))) t = none := by
  induction reg with
  | nil => rfl
  | cons p rest ih =>
    rw [List.filter_cons]
    by_cases hp : (!(dels.contains p.1)) = true
    · rw [if_pos hp]
      have hne : p.1 ≠ t := by
        intro hc
        rw [hc] at hp
        rw [Bool.not_eq_true', ← Bool.not_eq_true] at hp
        exact hp ((contains_iff_mem dels t).mpr h)
      rw [getAssoc, if_neg hne]
      exact ih
    · simp only [hp]
      simpa using ih

theorem sysApply_absent {reg : Reg} {t : String} {s : SysStep}
    (h : getAssoc reg t = none) (hs : stepAvoids t s) : getAssoc (sysApply reg s) t = none := by
  cases s with
  | http c m now => exact httpRequest_absent_pres c now h hs
  | ws b c ev =>
    rw [sysApply]
    rcases hw : wsStep c b reg ev with _ | r
    · exact h
    · exact wsStep_absent_pres hw h
  | sweep now =>
    rw [sysApply]
    rcases hw : timeout_idle_sessions_once reg now with _ | ⟨dels, nxt, surv⟩
    · exact h
    · show getAssoc surv t = none
      obtain ⟨_, hsurv⟩ := timeout_once_inv hw
      rw [hsurv]
      exact getAssoc_filter_none _ h

theorem sysRun_absent {reg : Reg} {t : String} {steps : List SysStep}
    (h : getAssoc reg t = none) (hs : ∀ s ∈ steps, stepAvoids t s) :
    getAssoc (sysRun reg steps) t = none := by
  induction steps generalizing reg with
  | nil => exact h
  | cons s rest ih =>
    rw [sysRun, List.foldl_cons]
    exact ih (sysApply_absent h (hs s (List.mem_cons_self _ _)))
      (fun s' hs' => hs s' (List.mem_cons_of_mem _ hs'))

theorem wsStep_reject {c : Option String} {reg : Reg}
    (h : c = none ∨ ∃ t, c = some t ∧ t ≠ "" ∧ getAssoc reg t = none) :
    wsStep c none reg WsEvent.connect =
      some ⟨none, reg, [WsOut.close WEBSOCK_CLOSE.POLICY_VIOLATION], true⟩ := by
  rcases h with rfl | ⟨t, rfl, ht, hn⟩
  · rfl
  · show wsDispatch (some t) none reg WsEvent.connect = _
    simp only [wsDispatch]
    rw [if_pos ⟨ht, hn⟩]

theorem wsStep_other {c b : Option String} {reg : Reg} (ty : String)
    (hb : b = none ∨ ∃ t s, b = some t ∧ getAssoc reg t = some s) :
    wsStep c b reg (WsEvent.other ty) = some ⟨b, reg, [], true⟩ := by
  rcases hb with rfl | ⟨t, s, rfl, ht⟩
  · rfl
  · simp only [wsStep, ht]
    rfl

theorem getAssoc_eq_some_iff_mem {α : Type} {l : List (String × α)}
    (hnd : (l.map Prod.fst).Nodup) {t : String} {v : α} :
    getAssoc l t = some v ↔ (t, v) ∈ l := by
  constructor
  · exact getAssoc_mem
  · intro hm
    induction l with
    | nil => cases hm
    | cons p rest ih =>
      rw [List.map_cons, List.nodup_cons] at hnd
      rcases List.mem_cons.mp hm with heq | hm'
      · rw [← heq, getAssoc, if_pos rfl]
      · have hne : p.1 ≠ t := by
          intro hc
          exact hnd.1 (hc ▸ List.mem_map_of_mem Prod.fst hm')
        rw [getAssoc, if_neg hne]
        exact ih hnd.2 hm'

theorem nodup_keys_filter {α : Type} {l : List (String × α)} (p : String × α → Bool)
    (hnd : (l.map Prod.fst).Nodup) : ((l.filter p).map Prod.fst).Nodup :=
  ((List.filter_sublist l).map Prod.fst).nodup hnd

theorem getAssoc_filter_some {reg : Reg} (p : String × Session → Bool)
    (hnd : RegKeysNodup reg) {t : String} {s : Session}
    (h : getAssoc (reg.filter p) t = some s) : getAssoc reg t = some s := by
  have hm : (t, s) ∈ reg.filter p := getAssoc_mem h
  exact (getAssoc_eq_some_iff_mem hnd).mpr (List.mem_filter.mp hm).1

/-- Concrete `pyround` evaluations used by the concrete scenarios. -/
theorem pyround_zero_st : pyround ((0 : ℚ) + SESSION_TIMEOUT) = 30 := by
  norm_num [pyround, SESSION_TIMEOUT]

theorem pyround_st : pyround SESSION_TIMEOUT = 30 := by
  norm_num [pyround, SESSION_TIMEOUT]

theorem pyround_thirty_st : pyround ((30 : ℚ) + SESSION_TIMEOUT) = 60 := by
  norm_num [pyround, SESSION_TIMEOUT]

theorem pyround_one_fifth_st : pyround (mkRat 1 5 + SESSION_TIMEOUT) = 30 := by
  simp only [SESSION_TIMEOUT, Rat.add_def]
  decide

theorem pyround_two_fifths_st : pyround (mkRat 2 5 + SESSION_TIMEOUT) = 30 := by
  simp only [SESSION_TIMEOUT, Rat.add_def]
  decide

/-! ## Cookie-lookup helpers -/

theorem optOr_none_right {α : Type} (a : Option α) : optOr a none = a := by
  cases a <;> rfl

theorem optOr_assoc {α : Type} (a b c : Option α) :
    optOr (optOr a b) c = optOr a (optOr b c) := by
  cases a <;> cases b <;> rfl

theorem lastAssign_cons (k' : String) (v' : String) (rest : List (String × String))
    (k : String) :
    lastAssign ((k', v') :: rest) k =
      optOr (lastAssign rest k) (if k' = k then some v' else none) := by
  rw [lastAssign]
  rcases lastAssign rest k with _ | r <;> rfl

theorem lastAssign_append (l1 l2 : List (String × String)) (k : String) :
    lastAssign (l1 ++ l2) k = optOr (lastAssign l2 k) (lastAssign l1 k) := by
  induction l1 with
  | nil => rw [List.nil_append, lastAssign, optOr_none_right]
  | cons p rest ih =>
    rcases p with ⟨k', v'⟩
    rw [List.cons_append, lastAssign_cons, lastAssign_cons, ih, optOr_assoc]

theorem getAssoc_setAssoc_ite {α : Type} (d : List (String × α)) (k n : String) (v : α) :
    getAssoc (setAssoc d k v) n = optOr (if k = n then some v else none) (getAssoc d n) := by
  by_cases hk : k = n
  · rw [if_pos hk, ← hk, getAssoc_setAssoc_self]
    rfl
  · rw [if_neg hk, getAssoc_setAssoc_ne _ _ (fun hc => hk hc.symm)]
    rfl

theorem addCookieItems_lookup (value : String) (d : List (String × String)) (n : String) :
    getAssoc (addCookieItems d value) n =
      optOr (lastAssign ((value.splitOn "; ").filterMap splitNameValue) n) (getAssoc d n) := by
  rw [addCookieItems]
  generalize value.splitOn "; " = items
  induction items generalizing d with
  | nil => rfl
  | cons item rest ih =>
    rw [List.foldl_cons, List.filterMap_cons]
    rcases hsv : splitNameValue item with _ | ⟨name, val⟩
    · simp only [hsv]
      exact ih d
    · simp only [hsv]
      rw [ih (setAssoc d name val), lastAssign_cons, optOr_assoc,
        getAssoc_setAssoc_ite]

theorem get_cookies_foldl (headers : List (List UInt8 × List UInt8))
    (d : List (String × String)) (n : String) :
    getAssoc
        (headers.foldl
          (fun cookies kv =>
            if kv.1 = cookieKeyword then
              match decodeHeaderValue kv.2 with
              | some value => addCookieItems cookies value
              | none => cookies
            else cookies)
          d) n =
      optOr (lastAssign (cookiePairsSpec headers) n) (getAssoc d n) := by
  induction headers generalizing d with
  | nil => rfl
  | cons kv rest ih =>
    rw [List.foldl_cons, cookiePairsSpec, List.flatMap_cons, ← cookiePairsSpec,
      lastAssign_append, optOr_assoc]
    by_cases hk : kv.1 = cookieKeyword
    · rw [if_pos hk]
      rcases hd : decodeHeaderValue kv.2 with _ | value
      · simp only [hd, hk, if_pos]
        rw [ih d]
        rfl
      · simp only [hd, hk, if_pos]
        rw [ih (addCookieItems d value), addCookieItems_lookup]
    · rw [if_neg hk]
      simp only [hk, if_neg, Bool.false_eq_true]
      rw [ih d]
      rfl

/-! ## The claims -/

/-- C1 (counterexample): in `handle_websocket` there is no `break` after the
reject-close, so the claim's "processes no further events from that
connection's event stream" is false: with an unknown token `"zzz"` the
handler sends the POLICY_VIOLATION close and then still echoes a subsequent
`websocket.receive` event.  The second conjunct states the claim instance
refuted: the output stream is not just the reject-close. -/
theorem c1_counterexample :
    wsRun (some "zzz") none [] [WsEvent.connect, WsEvent.receive (some "pingy-pingy") none]
        = some (none, [],
            [WsOut.close WEBSOCK_CLOSE.POLICY_VIOLATION,
             WsOut.send (some "pingy-pingy") none]) ∧
      ¬ (wsRun (some "zzz") none []
            [WsEvent.connect, WsEvent.receive (some "pingy-pingy") none]).map
          (fun q => q.2.2) = some [WsOut.close WEBSOCK_CLOSE.POLICY_VIOLATION] := by
  constructor
  · decide
  · decide

/-- C1 (amended): a duplex connect-intent whose bind fails because no token
is presented, or because the presented token is non-empty and absent from
the registry, is answered with a POLICY_VIOLATION close, mutates no
registry state, emits no accept for that event, and leaves the handler
unbound — but the event loop continues: the remaining events are processed
exactly as by a fresh unbound handler (the close is merely prepended to
their outputs).  (A presented empty-string token that is absent instead
kills the handler with a `KeyError`, see `wsDispatch`.) -/
theorem c1_reject_close_then_loop_continues :
    ∀ (cookieTok : Option String) (reg : Reg) (rest : List WsEvent),
    (cookieTok = none ∨ ∃ t, cookieTok = some t ∧ t ≠ "" ∧ getAssoc reg t = none) →
    wsRun cookieTok none reg (WsEvent.connect :: rest) =
      (wsRun cookieTok none reg rest).map
        (fun q => (q.1, q.2.1, WsOut.close WEBSOCK_CLOSE.POLICY_VIOLATION :: q.2.2)) := by
  intro c reg rest h
  simp only [wsRun, wsStep_reject h]
  rcases hrun : wsRun c none reg rest with _ | ⟨b, g, outs⟩
  · rfl
  · rfl

theorem c1_witness :
    wsRun (some "zzz") none [] [WsEvent.connect] =
      (wsRun (some "zzz") none [] []).map
        (fun q => (q.1, q.2.1, WsOut.close WEBSOCK_CLOSE.POLICY_VIOLATION :: q.2.2)) :=
  c1_reject_close_then_loop_continues (some "zzz") [] []
    (Or.inr ⟨"zzz", rfl, by decide, rfl⟩)

/-- C2 (code bug): the claim — `count` never negative and equal to the
number of currently bound connections — matches the source's own
description of `count` ("the number of current WebSocket connections"),
but the code violates it on a reachable interleaving.  The five conjuncts
are the successive atomic steps of one concrete schedule, each evaluated
on the real step functions:

1. an `http.request` with no cookie at time 0 mints `"T"`
   (`getAssoc [] "T" = none` holds, so the mint is legitimate);
2. a WebSocket handler (cookie `"T"`, initially unbound) processes
   `websocket.connect` and binds, `count = 1`;
3. the idle sweep at time 30 deletes `"T"` while the handler is suspended;
4. a new `http.request` at time 30 re-mints the same id `"T"` (again
   legitimately: the registry is empty, and `random.choices` can produce
   any id);
5. the still-bound handler processes `websocket.disconnect`: the guard
   `session_id in sessions` passes because of the re-minted record, and
   the fresh record's count is decremented to `-1`.

`-1 < 0`: the record's `count` is negative and no longer equals the number
of bound connections (one handler is bound to it). -/
theorem c2_count_goes_negative :
    getAssoc ([] : Reg) "T" = none ∧
    (httpRequest none "T" 0 []).reg = [("T", ⟨0, some 30⟩)] ∧
    wsStep (some "T") none [("T", ⟨0, some 30⟩)] WsEvent.connect
      = some ⟨some "T", [("T", ⟨1, some 30⟩)], [WsOut.accept], true⟩ ∧
    timeout_idle_sessions_once [("T", ⟨1, some 30⟩)] 30 = some (["T"], none, []) ∧
    (httpRequest none "T" 30 []).reg = [("T", ⟨0, some 60⟩)] ∧
    wsStep (some "T") (some "T") [("T", ⟨0, some 60⟩)] (WsEvent.disconnect WEBSOCK_CLOSE.NORMAL)
      = some ⟨some "T", [("T", ⟨-1, some 60⟩)], [], false⟩ ∧
    (-1 : ℤ) < 0 := by
  refine ⟨rfl, ?_, by decide, by decide, ?_, by decide, by decide⟩
  · simp [httpRequest, regSetExpires, setAssoc, getAssoc, pyround_zero_st, pyround_st]
  · simp [httpRequest, regSetExpires, setAssoc, getAssoc, pyround_thirty_st]

/-- C3 (counterexample): the stored expiry is `round(now + 30)`, an
integer, so two successful exchanges at distinct instants inside the same
rounding window leave the expiry unchanged — "strictly increases" is
false.  Here a session is created at `now = 1/5` (expiry `round(30.2) =
30`); a second exchange at `now' = 2/5` — strictly later and well before
the expiry 30 — succeeds (the `minted = false` reconnection branch) but
sets the expiry to `round(30.4) = 30` again, not a strictly larger
value. -/
theorem c3_counterexample :
    (httpRequest none "T" (mkRat 1 5) []).reg = [("T", ⟨0, some 30⟩)] ∧
    (mkRat 1 5 : ℚ) < mkRat 2 5 ∧
    (mkRat 2 5 : ℚ) < ((30 : ℤ) : ℚ) ∧
    (httpRequest (some "T") "M" (mkRat 2 5) [("T", ⟨0, some 30⟩)]).minted = false ∧
    (httpRequest (some "T") "M" (mkRat 2 5) [("T", ⟨0, some 30⟩)]).expires = 30 ∧
    (httpRequest (some "T") "M" (mkRat 2 5) [("T", ⟨0, some 30⟩)]).reg
      = [("T", ⟨0, some 30⟩)] ∧
    ¬ (30 : ℤ) > 30 := by
  refine ⟨?_, by decide, by decide, ?_, ?_, ?_, by decide⟩
  · simp [httpRequest, regSetExpires, setAssoc, getAssoc, pyround_one_fifth_st]
  · simp [httpRequest, getAssoc]
  · simp [httpRequest, getAssoc, pyround_two_fifths_st]
  · simp [httpRequest, regSetExpires, setAssoc, getAssoc, pyround_two_fifths_st]

/-- C3 (amended): a request presenting a token in the registry always
succeeds (the reconnection branch), answers with the same token, and sets
the stored and returned expiry to `round(now' + 30)`; if the stored expiry
came from an earlier exchange at time `now ≤ now'`, the expiry never moves
backward (weak monotonicity — strict increase holds only when the rounded
values differ).  Moreover the expiry of a record is changed by no other
step: a WebSocket event leaves every record's expiry unchanged, and a
sweep keeps surviving records verbatim. -/
theorem c3_touch_refreshes_expiry_monotone :
    ∀ (reg : Reg) (t : String) (s : Session) (e : ℤ) (now now' : ℚ) (mint : String),
    RegKeysNodup reg →
    getAssoc reg t = some s → s.expires = some e →
    e = pyround (now + SESSION_TIMEOUT) → now ≤ now' →
    ((httpRequest (some t) mint now' reg).minted = false ∧
     (httpRequest (some t) mint now' reg).token = t ∧
     (httpRequest (some t) mint now' reg).expires = pyround (now' + SESSION_TIMEOUT) ∧
     getAssoc (httpRequest (some t) mint now' reg).reg t =
       some { s with expires := some (pyround (now' + SESSION_TIMEOUT)) } ∧
     e ≤ pyround (now' + SESSION_TIMEOUT)) ∧
    (∀ (c b : Option String) (ev : WsEvent) (r : WsRes), wsStep c b reg ev = some r →
       (getAssoc r.reg t).map Session.expires = (getAssoc reg t).map Session.expires) ∧
    (∀ (now'' : ℚ) (dels : List String) (nxt : Option ℤ) (surv : Reg) (s' : Session),
       timeout_idle_sessions_once reg now'' = some (dels, nxt, surv) →
       getAssoc surv t = some s' → getAssoc reg t = some s') := by
  intro reg t s e now now' mint hnd hget hexp herg hle
  refine ⟨?_, ?_, ?_⟩
  · rw [httpRequest_touch mint now' hget]
    refine ⟨rfl, rfl, rfl, ?_, ?_⟩
    · exact getAssoc_setAssoc_self reg t _
    · rw [herg]
      exact pyround_mono (by linarith)
  · intro c b ev r hr
    exact wsStep_expires_map hr t
  · intro now'' dels nxt surv s' hsweep hsurv
    obtain ⟨_, hfil⟩ := timeout_once_inv hsweep
    rw [hfil] at hsurv
    exact getAssoc_filter_some _ hnd hsurv

theorem c3_witness :
    ((httpRequest (some "T") "M" 0 [("T", ⟨0, some 30⟩)]).minted = false ∧
     (httpRequest (some "T") "M" 0 [("T", ⟨0, some 30⟩)]).token = "T" ∧
     (httpRequest (some "T") "M" 0 [("T", ⟨0, some 30⟩)]).expires
       = pyround ((0 : ℚ) + SESSION_TIMEOUT) ∧
     getAssoc (httpRequest (some "T") "M" 0 [("T", ⟨0, some 30⟩)]).reg "T" =
       some { (⟨0, some 30⟩ : Session) with
         expires := some (pyround ((0 : ℚ) + SESSION_TIMEOUT)) } ∧
     (30 : ℤ) ≤ pyround ((0 : ℚ) + SESSION_TIMEOUT)) ∧
    (∀ (c b : Option String) (ev : WsEvent) (r : WsRes),
       wsStep c b [("T", ⟨0, some 30⟩)] ev = some r →
       (getAssoc r.reg "T").map Session.expires
         = (getAssoc [("T", (⟨0, some 30⟩ : Session))] "T").map Session.expires) ∧
    (∀ (now'' : ℚ) (dels : List String) (nxt : Option ℤ) (surv : Reg) (s' : Session),
       timeout_idle_sessions_once [("T", ⟨0, some 30⟩)] now'' = some (dels, nxt, surv) →
       getAssoc surv "T" = some s' →
       getAssoc [("T", (⟨0, some 30⟩ : Session))] "T" = some s') :=
  c3_touch_refreshes_expiry_monotone [("T", ⟨0, some 30⟩)] "T" ⟨0, some 30⟩ 30 0 0 "M"
    (by simp [RegKeysNodup]) (by decide) rfl (by rw [zero_add]; decide) (by decide)

/-- C4 (counterexample): "every subsequent touch … observes NotFound" is
false as stated, because the mint loop may legitimately reuse a deleted
id.  The sweep at time 30 deletes `"T"`; a later `http.request` with no
cookie (time 30, registry empty, so minting `"T"` again is a valid mint)
re-creates `"T"`; a subsequent request presenting `"T"` at time 31 then
takes the `minted = false` reconnection branch — it does not observe
NotFound. -/
theorem c4_counterexample :
    timeout_idle_sessions_once [("T", ⟨0, some 30⟩)] 30 = some (["T"], none, []) ∧
    (httpRequest none "T" 30 []).reg = [("T", ⟨0, some 60⟩)] ∧
    (httpRequest (some "T") "M" 31 [("T", ⟨0, some 60⟩)]).minted = false ∧
    (httpRequest (some "T") "M" 31 [("T", ⟨0, some 60⟩)]).token = "T" := by
  refine ⟨by decide, ?_, ?_, ?_⟩
  · simp [httpRequest, regSetExpires, setAssoc, getAssoc, pyround_thirty_st]
  · simp [httpRequest, getAssoc]
  · simp [httpRequest, getAssoc]

/-- C4 (amended): once a sweep has deleted token `t`, then as long as no
later `http.request` step re-mints the same id `t`, the token stays absent
from the registry across any interleaving of handler and sweep steps, and
therefore (i) a request presenting `t` takes the mint branch (`touch`
observes NotFound) and (ii) a duplex connect-intent presenting
`t` (non-empty) is rejected with a POLICY_VIOLATION close — the deleted
record itself is never resurrected. -/
theorem c4_no_resurrection_without_remint :
    ∀ (reg0 : Reg) (now : ℚ) (dels : List String) (nxt : Option ℤ) (reg1 : Reg)
      (t : String) (steps : List SysStep) (mint : String) (now' : ℚ),
    timeout_idle_sessions_once reg0 now = some (dels, nxt, reg1) →
    t ∈ dels →
    (∀ s ∈ steps, stepAvoids t s) →
    t ≠ "" →
    (getAssoc (sysRun reg1 steps) t = none ∧
     (httpRequest (some t) mint now' (sysRun reg1 steps)).minted = true ∧
     wsStep (some t) none (sysRun reg1 steps) WsEvent.connect =
       some ⟨none, sysRun reg1 steps, [WsOut.close WEBSOCK_CLOSE.POLICY_VIOLATION], true⟩) := by
  intro reg0 now dels nxt reg1 t steps mint now' hsweep hdel hav hne
  obtain ⟨_, hfil⟩ := timeout_once_inv hsweep
  have h1 : getAssoc reg1 t = none := by
    rw [hfil]
    exact getAssoc_del_filter hdel
  have habs : getAssoc (sysRun reg1 steps) t = none := sysRun_absent h1 hav
  refine ⟨habs, ?_, wsStep_reject (Or.inr ⟨t, rfl, hne, habs⟩)⟩
  rw [httpRequest_mint mint now' (Or.inr ⟨t, rfl, habs⟩)]

theorem c4_witness :
    getAssoc (sysRun [] []) "T" = none ∧
    (httpRequest (some "T") "M" 31 (sysRun [] [])).minted = true ∧
    wsStep (some "T") none (sysRun [] []) WsEvent.connect =
      some ⟨none, sysRun [] [], [WsOut.close WEBSOCK_CLOSE.POLICY_VIOLATION], true⟩ :=
  c4_no_resurrection_without_remint [("T", ⟨0, some 30⟩)] 30 ["T"] none [] "T" [] "M" 31
    (by decide) (by decide) (by simp) (by decide)

/-- C5 (confirmed): on a well-formed registry (every record has its
expiry, which `Reach`-style execution guarantees) with distinct keys, one
iteration of `timeout_idle_sessions` succeeds and (i) keeps exactly the
records with `expires > now`, (ii) returns exactly the ids of the records
with `expires <= now` as deleted, (iii) returns `none` as next wake-up
exactly when no record survives (which makes the loop break and the
scheduler task terminate), and otherwise returns a surviving record's
expiry that is minimal among all surviving expiries.  Moreover the sweep
is the only deletion path: an `http.request` step and a WebSocket event
step never remove a present key. -/
theorem c5_sweep_deletes_exactly_expired :
    ∀ (reg : Reg) (now : ℚ), RegWF reg → RegKeysNodup reg →
    (∃ dels nxt surv,
      timeout_idle_sessions_once reg now = some (dels, nxt, surv) ∧
      surv = reg.filter (fun kv => !(expiredAt now kv)) ∧
      dels = (reg.filter (expiredAt now)).map Prod.fst ∧
      (nxt = none ↔ surv = []) ∧
      (∀ m, nxt = some m →
        (∃ p ∈ surv, p.2.expires = some m) ∧
        ∀ p ∈ surv, ∀ e, p.2.expires = some e → m ≤ e)) ∧
    (∀ (c : Option String) (m : String) (nw : ℚ) (reg' : Reg) (t : String),
        getAssoc reg' t ≠ none → getAssoc (httpRequest c m nw reg').reg t ≠ none) ∧
    (∀ (c b : Option String) (reg' : Reg) (ev : WsEvent) (r : WsRes) (t : String),
        wsStep c b reg' ev = some r → getAssoc reg' t ≠ none → getAssoc r.reg t ≠ none) := by
  intro reg now hwf hnd
  refine ⟨?_, ?_, ?_⟩
  · refine ⟨(reg.filter (expiredAt now)).map Prod.fst,
      minAcc none (survExpiries reg now),
      reg.filter (fun kv => !(expiredAt now kv)), ?_, rfl, rfl, ?_, ?_⟩
    · rw [timeout_idle_sessions_once, sweepScan_eq reg now [] none hwf, List.nil_append]
      show some ((reg.filter (expiredAt now)).map Prod.fst,
          minAcc none (survExpiries reg now),
          reg.filter
            (fun kv => !((((reg.filter (expiredAt now)).map Prod.fst)).contains kv.1))) = _
      rw [sweep_delete_filter reg now hnd]
    · rw [minAcc_eq_none_iff]
      simp only [true_and]
      exact survExpiries_eq_nil_iff reg now hwf
    · intro m hm
      obtain ⟨h1, _, h3⟩ := minAcc_spec _ _ hm
      constructor
      · rcases h1 with h1 | h1
        · cases h1
        · obtain ⟨p, hp, hpe⟩ := List.mem_filterMap.mp h1
          exact ⟨p, hp, hpe⟩
      · intro p hp e hpe
        exact h3 e (List.mem_filterMap.mpr ⟨p, hp, hpe⟩)
  · intro c m nw reg' t h
    exact httpRequest_key_pres c m nw h
  · intro c b reg' ev r t hr h
    exact wsStep_key_pres hr h

theorem c5_witness :
    (∃ dels nxt surv,
      timeout_idle_sessions_once [("T", ⟨0, some 30⟩)] 0 = some (dels, nxt, surv) ∧
      surv = [("T", (⟨0, some 30⟩ : Session))].filter (fun kv => !(expiredAt 0 kv)) ∧
      dels = ([("T", (⟨0, some 30⟩ : Session))].filter (expiredAt 0)).map Prod.fst ∧
      (nxt = none ↔ surv = []) ∧
      (∀ m, nxt = some m →
        (∃ p ∈ surv, p.2.expires = some m) ∧
        ∀ p ∈ surv, ∀ e, p.2.expires = some e → m ≤ e)) ∧
    (∀ (c : Option String) (m : String) (nw : ℚ) (reg' : Reg) (t : String),
        getAssoc reg' t ≠ none → getAssoc (httpRequest c m nw reg').reg t ≠ none) ∧
    (∀ (c b : Option String) (reg' : Reg) (ev : WsEvent) (r : WsRes) (t : String),
        wsStep c b reg' ev = some r → getAssoc reg' t ≠ none → getAssoc r.reg t ≠ none) :=
  c5_sweep_deletes_exactly_expired [("T", ⟨0, some 30⟩)] 0 (by simp [RegWF]) (by simp [RegKeysNodup])

/-- C6 (confirmed): a bound handler checks, before dispatching each
received event, whether its bound token still resolves in the registry;
if the token has been deleted it sends a GOING_AWAY close, breaks out of
its event loop (no later event of the stream is processed), and performs
no registry mutation — in particular no decrement of the already deleted
record's count. -/
theorem c6_stale_bound_going_away :
    ∀ (cookieTok : Option String) (t : String) (reg : Reg) (ev : WsEvent)
      (rest : List WsEvent),
    getAssoc reg t = none →
    wsRun cookieTok (some t) reg (ev :: rest) =
      some (some t, reg, [WsOut.close WEBSOCK_CLOSE.GOING_AWAY]) := by
  intro c t reg ev rest h
  simp only [wsRun, wsStep_goingaway ev h]
  rfl

theorem c6_witness :
    wsRun none (some "T") [] [WsEvent.receive (some "x") none] =
      some (some "T", [], [WsOut.close WEBSOCK_CLOSE.GOING_AWAY]) :=
  c6_stale_bound_going_away none "T" [] (WsEvent.receive (some "x") none) [] rfl

/-- C7 (counterexample): an event of unexpected kind is reported
(`logger.warning`) but the connection is NOT torn down: the `else` branch
of both handlers merely continues the loop.  A bound handler receiving the
unknown event `"bogus"` goes on to echo the following
`websocket.receive` — were the connection torn down at the violation, the
run would have produced no output at all. -/
theorem c7_counterexample :
    wsRun (some "T") (some "T") [("T", ⟨1, some 99⟩)]
        [WsEvent.other "bogus", WsEvent.receive (some "x") none]
      = some (some "T", [("T", ⟨1, some 99⟩)], [WsOut.send (some "x") none]) ∧
    ¬ wsRun (some "T") (some "T") [("T", ⟨1, some 99⟩)]
        [WsEvent.other "bogus", WsEvent.receive (some "x") none]
      = some (some "T", [("T", ⟨1, some 99⟩)], []) := by
  constructor
  · decide
  · decide

/-- C7 (amended): an event whose kind is unexpected for the current state
is reported and ignored, with no effect on the registry, on the handler's
state, or on the rest of the run: processing an unexpected event followed
by the remaining events is identical to processing the remaining events
alone — the connection is not torn down.  This holds for the WebSocket
handler (whenever its bound token, if any, still resolves, so that the
timed-out check does not fire first) and unconditionally for the HTTP
handler. -/
theorem c7_unexpected_event_ignored :
    (∀ (c b : Option String) (reg : Reg) (ty : String) (rest : List WsEvent),
       (b = none ∨ ∃ t s, b = some t ∧ getAssoc reg t = some s) →
       wsRun c b reg (WsEvent.other ty :: rest) = wsRun c b reg rest) ∧
    (∀ (c : Option String) (reg : Reg) (ty : String) (rest : List HttpEvent),
       httpRun c reg (HttpEvent.other ty :: rest) = httpRun c reg rest) := by
  constructor
  · intro c b reg ty rest hb
    simp only [wsRun, wsStep_other ty hb]
    rcases hrun : wsRun c b reg rest with _ | ⟨b2, g, outs⟩
    · rfl
    · rfl
  · intro c reg ty rest
    rfl

theorem c7_witness :
    wsRun none none [] [WsEvent.other "bogus"] = wsRun none none [] [] :=
  c7_unexpected_event_ignored.1 none none [] "bogus" [] (Or.inl rfl)

/-- C8 (confirmed): one `http.request` event behaves as specified: if the
caller-supplied token is absent, or presented but not a key of the
registry, the handler behaves identically to the no-token case — it mints
a fresh id (a new record with `count = 0` and expiry `round(now + 30)` is
appended; the mint loop guarantees the id is fresh) and the response
carries that new token; otherwise (the presented token is a key) the
record's expiry is refreshed to `round(now + 30)`, its count kept, and the
response carries the presented token. -/
theorem c8_request_mints_or_refreshes :
    ∀ (cookieTok : Option String) (mint : String) (now : ℚ) (reg : Reg),
    ((cookieTok = none ∨ ∃ t, cookieTok = some t ∧ getAssoc reg t = none) →
      (httpRequest cookieTok mint now reg = httpRequest none mint now reg ∧
       (getAssoc reg mint = none →
         httpRequest cookieTok mint now reg =
           ⟨true, mint, pyround (now + SESSION_TIMEOUT),
             reg ++ [(mint, ⟨0, some (pyround (now + SESSION_TIMEOUT))⟩)]⟩))) ∧
    (∀ t s, cookieTok = some t → getAssoc reg t = some s →
      httpRequest cookieTok mint now reg =
        ⟨false, t, pyround (now + SESSION_TIMEOUT),
          setAssoc reg t { s with expires := some (pyround (now + SESSION_TIMEOUT)) }⟩) := by
  intro c mint now reg
  constructor
  · intro h
    constructor
    · rw [httpRequest_mint mint now h, httpRequest_mint mint now (Or.inl rfl)]
    · intro habs
      rw [httpRequest_mint mint now h, getAssoc_setAssoc_absent _ habs]
  · intro t s hc hs
    obtain rfl := hc
    exact httpRequest_touch mint now hs

theorem c8_witness :
    (httpRequest (some "zzz") "M" 0 [] = httpRequest none "M" 0 [] ∧
     (getAssoc ([] : Reg) "M" = none →
       httpRequest (some "zzz") "M" 0 [] =
         ⟨true, "M", pyround ((0 : ℚ) + SESSION_TIMEOUT),
           [] ++ [("M", ⟨0, some (pyround ((0 : ℚ) + SESSION_TIMEOUT))⟩)]⟩)) ∧
    httpRequest (some "T") "M" 0 [("T", ⟨1, some 30⟩)] =
      ⟨false, "T", pyround ((0 : ℚ) + SESSION_TIMEOUT),
        setAssoc [("T", ⟨1, some 30⟩)] "T"
          { (⟨1, some 30⟩ : Session) with
            expires := some (pyround ((0 : ℚ) + SESSION_TIMEOUT)) }⟩ :=
  ⟨(c8_request_mints_or_refreshes (some "zzz") "M" 0 []).1 (Or.inr ⟨"zzz", rfl, rfl⟩),
   (c8_request_mints_or_refreshes (some "T") "M" 0 [("T", ⟨1, some 30⟩)]).2 "T"
     ⟨1, some 30⟩ rfl (by decide)⟩

/-- C9 (confirmed): in every reachable registry state — i.e. at every
suspension point, the only instants at which another task can observe the
shared `sessions` dict — every record has both its `count` and its
`expires` entry.  The record is inserted as `{"count" : 0}` and its
`"expires"` entry is assigned in the same atomic step of `handle_http`
(no `await` between line 212 and line 230 other than `asyncio.create_task`,
which schedules but does not run the sweeper), which is why `httpRequest`
models the two writes as one step; hence a sweep can never read a record
lacking `"expires"`. -/
theorem c9_registry_always_wellformed : ∀ reg : Reg, Reach reg → RegWF reg := by
  intro reg h
  induction h with
  | init =>
    intro p hp
    cases hp
  | step s hr hok ih => exact RegWF_sysApply s ih

theorem c9_witness : RegWF (sysApply [] (SysStep.http none "T" 0)) :=
  c9_registry_always_wellformed _ (Reach.step (SysStep.http none "T" 0) Reach.init rfl)

/-- C10 (confirmed): `get_cookies` is a total function of the header list
(UTF-8 decoding failures and items without a `"="` never raise — they are
the `none` branches of `decodeHeaderValue` and `splitNameValue`), and its
result is characterized pointwise: looking up a name yields exactly the
value of the last assignment among the parsed pairs, where the parsed
pairs (`cookiePairsSpec`) are those of the decodable `cookie` headers
(undecodable header values contribute nothing) with the no-`"="` items
skipped.  In particular, when a name occurs more than once, the last
occurrence's value is returned. -/
theorem c10_get_cookies_total_last_wins :
    ∀ (headers : List (List UInt8 × List UInt8)) (n : String),
    getAssoc (get_cookies headers) n = lastAssign (cookiePairsSpec headers) n := by
  intro headers n
  rw [get_cookies, get_cookies_foldl]
  exact optOr_none_right _
